import Mathlib

/-!
Verification development for the clslang parser-combinator engine
(src/clslang/srcitr.py and src/clslang/symbol.py).

The development has two parts:

1. A transactional-cursor model of SrcItr (srcitr.py): a stack of
   positions over a fixed input sequence, mirroring __enter__ (begin a
   nested attempt), __next__ and __exit__ (commit or roll back).

2. A shallow embedding of the symbol classes (symbol.py): the grammar
   nodes form an inductive type Symbol, and evalS is a fuel-indexed
   evaluator that mirrors, method by method, the tryitr / itr_for_try /
   make_from_itr protocol of symbol.py.  The fuel only bounds the
   nesting depth of the grammar tree; a result of Option.none means the
   fuel ran out or the Python original diverges (an unbounded Rep whose
   child succeeds without consuming input loops forever in Python).

Python exceptions are modelled as an explicit error type:
SymbolTryFailed, StopSrcItr, NotAllCharsUsed, plus the IndexError and
TypeError that CPython itself raises when the result protocol is
misused (tuple(...)[0] on an empty tuple in SymbolABC.trystr and
OneResSymbol, str.join / chain.from_iterable over non-iterables).
-/

namespace Clslang

/-! ## Part 1: the SrcItr transactional cursor (srcitr.py)

A SrcItr owns the sequence and a position; __enter__ creates a child
cursor over the same sequence at the parent position, and __exit__
copies the child position back into the parent exactly when no
exception occurred.  We model the live cursors as a stack of positions
(head = innermost child, last = root), and the three operations that
the engine performs on them.  Operations always act on the innermost
cursor, which is how the combinator engine uses the class. -/

/-- The three cursor operations of srcitr.py: SrcItr.__next__,
SrcItr.__enter__ (beginAttempt) and SrcItr.__exit__ (endAttempt,
committed iff no exception occurred). -/
inductive CursorOp : Type where
  | next : CursorOp
  | beginAttempt : CursorOp
  | endAttempt (committed : Bool) : CursorOp

/-- One cursor operation on the stack of live positions (head is the
innermost cursor).  next advances the innermost position by one unless
it is at end of input (then StopSrcItr is raised and the position is
untouched); beginAttempt pushes a child cursor at the parent position
(SrcItr.__enter__); endAttempt pops the child and, exactly when
committed, writes its position into the parent (SrcItr.__exit__).
Operations on an empty stack, or endAttempt without a parent, do not
occur in the engine and are mapped to Option.none. -/
def opStep (len : Nat) : CursorOp → List Nat → Option (List Nat)
  | .next, p :: ps => some ((if p < len then p + 1 else p) :: ps)
  | .beginAttempt, p :: ps => some (p :: p :: ps)
  | .endAttempt c, child :: parent :: ps =>
      some ((if c then child else parent) :: ps)
  | _, _ => none

/-- Run a list of cursor operations from left to right. -/
def runOps (len : Nat) : List CursorOp → List Nat → Option (List Nat)
  | [], st => some st
  | op :: ops, st => (opStep len op st).bind (runOps len ops)

/-! ## Part 2: the symbol classes (symbol.py) -/

/-- Result values produced by a parse: Python strings (single matched
characters are length-one strings), tuples, and the None sentinel that
grammars pass as the none_val of Opt. -/
inductive Val : Type where
  | vstr (s : String) : Val
  | vtuple (vs : List Val) : Val
  | vnone : Val

mutual

/-- Decidable equality of result values (hand-rolled because of the
nested List in vtuple). -/
def Val.decEq : (a b : Val) → Decidable (a = b)
  | .vstr a, .vstr b =>
      match String.decEq a b with
      | isTrue h => isTrue (by rw [h])
      | isFalse h => isFalse (fun hh => h (by cases hh; rfl))
  | .vstr _, .vtuple _ => isFalse (fun h => Val.noConfusion h)
  | .vstr _, .vnone => isFalse (fun h => Val.noConfusion h)
  | .vtuple _, .vstr _ => isFalse (fun h => Val.noConfusion h)
  | .vtuple vs, .vtuple ws =>
      match Val.decEqList vs ws with
      | isTrue h => isTrue (by rw [h])
      | isFalse h => isFalse (fun hh => h (by cases hh; rfl))
  | .vtuple _, .vnone => isFalse (fun h => Val.noConfusion h)
  | .vnone, .vstr _ => isFalse (fun h => Val.noConfusion h)
  | .vnone, .vtuple _ => isFalse (fun h => Val.noConfusion h)
  | .vnone, .vnone => isTrue rfl

/-- Decidable equality of lists of result values. -/
def Val.decEqList : (a b : List Val) → Decidable (a = b)
  | [], [] => isTrue rfl
  | [], _ :: _ => isFalse (fun h => List.noConfusion h)
  | _ :: _, [] => isFalse (fun h => List.noConfusion h)
  | v :: vs, w :: ws =>
      match Val.decEq v w, Val.decEqList vs ws with
      | isTrue h1, isTrue h2 => isTrue (by rw [h1, h2])
      | isFalse h1, _ => isFalse (fun h => h1 (by cases h; rfl))
      | isTrue _, isFalse h2 => isFalse (fun h => h2 (by cases h; rfl))

end

instance : DecidableEq Val := Val.decEq

/-- Decidable equality for parse outcomes (Except with decidable error
and value types). -/
def exceptDecEq {ε α : Type} [DecidableEq ε] [DecidableEq α] :
    (a b : Except ε α) → Decidable (a = b)
  | .error e1, .error e2 =>
      match decEq e1 e2 with
      | isTrue h => isTrue (by rw [h])
      | isFalse h => isFalse (fun hh => h (by cases hh; rfl))
  | .error _, .ok _ => isFalse (fun h => Except.noConfusion h)
  | .ok _, .error _ => isFalse (fun h => Except.noConfusion h)
  | .ok a1, .ok a2 =>
      match decEq a1 a2 with
      | isTrue h => isTrue (by rw [h])
      | isFalse h => isFalse (fun hh => h (by cases hh; rfl))

instance {ε α : Type} [DecidableEq ε] [DecidableEq α] :
    DecidableEq (Except ε α) := exceptDecEq

/-- The exceptions of symbol.py and srcitr.py that a parse can raise:
SymbolTryFailed, StopSrcItr (end of input), NotAllCharsUsed, and the
CPython IndexError / TypeError raised by the result protocol when it is
applied to values of the wrong shape. -/
inductive Err : Type where
  | tryFailed : Err
  | endOfInput : Err
  | notAllCharsUsed : Err
  | indexError : Err
  | typeError : Err
deriving DecidableEq

/-- Grammar nodes, one constructor per (concrete) symbol class of
symbol.py.  Makers are the user-supplied transform callables: a node
whose result protocol calls the maker with a single value carries an
optional Val to Val function, a node that passes many values (either as
separate arguments or as one iterable) carries an optional function
from the list of those values.  Str, CustomStr, Keyword, Opt, IgnoreOpt
and RepSep are built from these below exactly as their __init__ does. -/
inductive Symbol : Type where
  | char (ch : Char) : Symbol
  | explChar (ch : Char) (maker : Option (Val → Val)) : Symbol
  | charNot (ch : Char) (maker : Option (Val → Val)) : Symbol
  | chars (chs : List Char) (maker : Option (Val → Val)) : Symbol
  | charsNot (chs : List Char) (maker : Option (Val → Val)) : Symbol
  | charsNotEsc (chs : List Char) (escapeChar : Char)
      (maker : Option (Val → Val)) : Symbol
  | seq (symbols : List Symbol) (maker : Option (List Val → Val)) : Symbol
  | ignore (symbols : List Symbol) : Symbol
  | exceptSym (symBase symExcept : Symbol) : Symbol
  | explStr (lit : List Char) (maker : Option (Val → Val)) : Symbol
  | rep (child : Symbol) (nmin nmax : Option Nat)
      (maker : Option (List Val → Val)) : Symbol
  | ignoreRep (child : Symbol) (nmin nmax : Option Nat) : Symbol
  | repStr (child : Symbol) (nmin nmax : Option Nat)
      (maker : Option (Val → Val)) : Symbol
  | opt (child : Symbol) (maker : Option (List Val → Val))
      (noneVal : Option Val) : Symbol
  | orSym (symbols : List Symbol) (maker : Option (Val → Val)) : Symbol
  | chain (symbols : List Symbol) (maker : Option (List Val → Val)) : Symbol

mutual

/-- Whether a node contributes no values upward.  True exactly for the
NoResSymbol subclasses among our constructors (Char, Str via ignore,
Ignore, IgnoreRep / IgnoreOpt) and for a Seq whose contributing-child
count is zero, mirroring Seq.__init__ (a child counts unless it is a
NoResSymbol, or an AnyTypeResSymbol whose is_no_res property is
true). -/
def Symbol.is_no_res : Symbol → Bool
  | .char _ => true
  | .ignore _ => true
  | .ignoreRep _ _ _ => true
  | .seq symbols _ => Symbol.nsymsList symbols == 0
  | _ => false

/-- The number of result-contributing children of a Seq (the _nsyms
count of Seq.__init__). -/
def Symbol.nsymsList : List Symbol → Nat
  | [] => 0
  | c :: rest => (if c.is_no_res then 0 else 1) + Symbol.nsymsList rest

end

/-- The _nsyms count of Seq.__init__ for a list of children. -/
def nsyms (symbols : List Symbol) : Nat :=
  Symbol.nsymsList symbols

/-- A result of running the value iterator of one symbol: the new
cursor position together with the list of yielded values, or an
exception. -/
abbrev ItrRes := Except Err (Nat × List Val)

/-- A possibly non-terminating result (Option.none = out of fuel, or
the Python original loops forever). -/
abbrev PRes := Option ItrRes

/-- SrcItr.__next__ as seen by the evaluator: the character at pos and
pos + 1, or StopSrcItr when the cursor is at end of input. -/
def srcNext (s : List Char) (pos : Nat) : Except Err (Char × Nat) :=
  if h : pos < s.length then .ok (s.get ⟨pos, h⟩, pos + 1)
  else .error .endOfInput

/-- CharABC.itr_for_try: read one element; if is_valid_char holds,
yield it (a length-one string), otherwise raise SymbolTryFailed. -/
def charItrForTry (valid : Char → Bool) (s : List Char) (pos : Nat) :
    ItrRes :=
  match srcNext s pos with
  | .error e => .error e
  | .ok (ch, pos1) =>
      if valid ch then .ok (pos1, [.vstr (String.mk [ch])])
      else .error .tryFailed

/-- CharWithEscapeABC.itr_for_try: if the first element is the escape
character, the following element is yielded verbatim with no validity
check; otherwise the plain single-character rule applies. -/
def charEscItrForTry (isEsc valid : Char → Bool) (s : List Char)
    (pos : Nat) : ItrRes :=
  match srcNext s pos with
  | .error e => .error e
  | .ok (ch, pos1) =>
      if isEsc ch then
        match srcNext s pos1 with
        | .error e => .error e
        | .ok (ch2, pos2) => .ok (pos2, [.vstr (String.mk [ch2])])
      else if valid ch then .ok (pos1, [.vstr (String.mk [ch])])
      else .error .tryFailed

/-- OneResSymbol.maker application (maker None passes the value
through unchanged). -/
def applyOneMaker (maker : Option (Val → Val)) (v : Val) : Val :=
  match maker with
  | none => v
  | some f => f v

/-- MultiResSymbol / ManyResSymbol maker application (maker None
collects the values into a tuple). -/
def applyManyMaker (maker : Option (List Val → Val)) (vs : List Val) :
    Val :=
  match maker with
  | none => .vtuple vs
  | some f => f vs

/-- OneResSymbol.make_from_itr on the raw iterator result: take the
first yielded value (list(valitr)[0], an IndexError when the iterator
is empty) and pass it through the maker. -/
def oneResShell (maker : Option (Val → Val)) (r : ItrRes) : ItrRes :=
  match r with
  | .error e => .error e
  | .ok (pos, vals) =>
      match vals with
      | [] => .error .indexError
      | v :: _ => .ok (pos, [applyOneMaker maker v])

/-- NoResSymbol.tryitr on the raw iterator result: drain the iterator
and yield nothing. -/
def noResShell (r : ItrRes) : ItrRes :=
  match r with
  | .error e => .error e
  | .ok (pos, _) => .ok (pos, [])

/-- MultiResSymbol / ManyResSymbol make_from_itr on the raw iterator
result: yield one value, the tuple of values or the maker applied to
them. -/
def manyResShell (maker : Option (List Val → Val)) (r : ItrRes) :
    ItrRes :=
  match r with
  | .error e => .error e
  | .ok (pos, vals) => .ok (pos, [applyManyMaker maker vals])

/-- str.join over the yielded values, as in StrMaker
.preprocess_one_valitr: every value must be a string, otherwise CPython
raises a TypeError. -/
def strJoin : List Val → Except Err String
  | [] => .ok ""
  | .vstr a :: rest =>
      match strJoin rest with
      | .error e => .error e
      | .ok b => .ok (a ++ b)
  | _ :: _ => .error .typeError

/-- StrMaker.make_from_itr on the raw iterator result: join the yielded
values into one string and pass it through the maker. -/
def strMakerShell (maker : Option (Val → Val)) (r : ItrRes) : ItrRes :=
  match r with
  | .error e => .error e
  | .ok (pos, vals) =>
      match strJoin vals with
      | .error e => .error e
      | .ok joined => .ok (pos, [applyOneMaker maker (.vstr joined)])

/-- Iterating a Python value, as chain.from_iterable does in
Chain.preprocess_multi_valitr: a tuple yields its elements, a string
yields its characters as length-one strings, anything else raises a
TypeError. -/
def pyIterVal : Val → Except Err (List Val)
  | .vtuple vs => .ok vs
  | .vstr a => .ok (a.data.map (fun c => .vstr (String.mk [c])))
  | .vnone => .error .typeError

/-- chain.from_iterable over the yielded values: concatenate the
one-level flattening of every value. -/
def chainFlatten : List Val → Except Err (List Val)
  | [] => .ok []
  | v :: rest =>
      match pyIterVal v with
      | .error e => .error e
      | .ok vs =>
          match chainFlatten rest with
          | .error e => .error e
          | .ok rest2 => .ok (vs ++ rest2)

/-- Opt.make_from_itr: with a maker, apply it to the values; without
one, when none_val is unspecified yield the tuple of values, and when a
none_val was given yield the single value when there is one and the
none_val sentinel when there is none. -/
def optMake (maker : Option (List Val → Val)) (noneVal : Option Val)
    (vals : List Val) : Val :=
  match maker with
  | some f => f vals
  | none =>
      match noneVal with
      | none => .vtuple vals
      | some nv =>
          match vals with
          | [] => nv
          | v :: _ => v

/-- SeqABC.itr_for_try: run each child symbol in order on the same
cursor (no nested attempt inside the sequence) and concatenate the
values each child yields; any exception aborts the whole sequence. -/
def seqItrForTry (ev : Symbol → Nat → PRes) :
    List Symbol → Nat → PRes
  | [], pos => some (.ok (pos, []))
  | c :: rest, pos =>
      match ev c pos with
      | none => none
      | some (.error e) => some (.error e)
      | some (.ok (pos1, vals)) =>
          match seqItrForTry ev rest pos1 with
          | none => none
          | some (.error e) => some (.error e)
          | some (.ok (pos2, vals2)) => some (.ok (pos2, vals ++ vals2))

/-- The body of RepABC.itr_for_try for a bounded max: iterate over
range(max); each iteration opens a nested attempt (commit on success,
keep the old position on SymbolTryFailed or StopSrcItr and break,
propagate any other exception).  Returns the final value of the Python
loop variable i (the index of the failing iteration on a break; max - 1
when range(max) is exhausted; the initial 0 when max = 0), the final
position and the accumulated values. -/
def repLoopB (ev : Nat → PRes) :
    Nat → Nat → Nat → List Val → Option (Except Err (Nat × Nat × List Val))
  | 0, idx, pos, acc =>
      some (.ok ((if idx = 0 then 0 else idx - 1), pos, acc))
  | rem + 1, idx, pos, acc =>
      match ev pos with
      | none => none
      | some (.error .tryFailed) => some (.ok (idx, pos, acc))
      | some (.error .endOfInput) => some (.ok (idx, pos, acc))
      | some (.error e) => some (.error e)
      | some (.ok (pos1, vals)) => repLoopB ev rem (idx + 1) pos1 (acc ++ vals)

/-- The body of RepABC.itr_for_try for max = None (itertools.count):
the loop can only end through a failing iteration.  The cap argument is
a budget of length-of-remaining-input + 1 iterations: reaching it means
some iteration succeeded without consuming input, in which case the
Python loop never terminates, so the result is Option.none. -/
def repLoopN (ev : Nat → PRes) :
    Nat → Nat → Nat → List Val → Option (Except Err (Nat × Nat × List Val))
  | 0, _, _, _ => none
  | cap + 1, idx, pos, acc =>
      match ev pos with
      | none => none
      | some (.error .tryFailed) => some (.ok (idx, pos, acc))
      | some (.error .endOfInput) => some (.ok (idx, pos, acc))
      | some (.error e) => some (.error e)
      | some (.ok (pos1, vals)) => repLoopN ev cap (idx + 1) pos1 (acc ++ vals)

/-- The iteration loop of RepABC.itr_for_try: range(max) when max is
given, itertools.count() otherwise. -/
def repLoop (ev : Nat → PRes) :
    Option Nat → Nat → Nat → Option (Except Err (Nat × Nat × List Val))
  | some mx, _, pos => repLoopB ev mx 0 pos []
  | none, slen, pos => repLoopN ev (slen - pos + 1) 0 pos []

/-- The min check at the end of RepABC.itr_for_try: raise
SymbolTryFailed when min is specified and the final loop variable i is
below it. -/
def repMinCheck (nmin : Option Nat) :
    Option (Except Err (Nat × Nat × List Val)) → PRes
  | none => none
  | some (.error e) => some (.error e)
  | some (.ok (i, pos1, vals)) =>
      match nmin with
      | some mn =>
          if i < mn then some (.error .tryFailed) else some (.ok (pos1, vals))
      | none => some (.ok (pos1, vals))

/-- RepABC.itr_for_try: run the iteration loop, then apply the min
check to the loop outcome. -/
def repItrForTry (ev : Nat → PRes) (nmin nmax : Option Nat)
    (slen pos : Nat) : PRes :=
  repMinCheck nmin (repLoop ev nmax slen pos)

/-- OR.itr_for_try: try each alternative in registration order inside
its own nested attempt; the first success is committed and its values
are yielded; SymbolTryFailed and StopSrcItr move on to the next
alternative (rolling the attempt back); any other exception propagates;
when every alternative has failed, raise SymbolTryFailed. -/
def orItrForTry (ev : Symbol → Nat → PRes) :
    List Symbol → Nat → PRes
  | [], _ => some (.error .tryFailed)
  | a :: rest, pos =>
      match ev a pos with
      | none => none
      | some (.ok r) => some (.ok r)
      | some (.error .tryFailed) => orItrForTry ev rest pos
      | some (.error .endOfInput) => orItrForTry ev rest pos
      | some (.error e) => some (.error e)

/-- Except.itr_for_try: run sym_except in a throwaway nested attempt;
when it succeeds, raise SymbolTryFailed; when it raises SymbolTryFailed
(and only then - other exceptions propagate), run sym_base on the real
cursor. -/
def exceptItrForTry (evBase evExcl : Nat → PRes) (pos : Nat) : PRes :=
  match evExcl pos with
  | none => none
  | some (.ok _) => some (.error .tryFailed)
  | some (.error .tryFailed) => evBase pos
  | some (.error e) => some (.error e)

/-- StrABC as a sequence of ExplChar children, run by SeqABC
.itr_for_try: consume one element per literal character, raise
SymbolTryFailed on the first mismatch (StopSrcItr when the input runs
out), and yield each matched character. -/
def strItrForTry : List Char → List Char → Nat → ItrRes
  | [], _, pos => .ok (pos, [])
  | c :: cs, s, pos =>
      match srcNext s pos with
      | .error e => .error e
      | .ok (ch, pos1) =>
          if ch = c then
            match strItrForTry cs s pos1 with
            | .error e => .error e
            | .ok (pos2, vals) => .ok (pos2, .vstr (String.mk [ch]) :: vals)
          else .error .tryFailed

/-- One step of the evaluator: the tryitr method of one node, given an
evaluator ev for its children.  Each case composes the node's
itr_for_try with its result shell exactly as the classes of symbol.py
mix them. -/
def evalBody (ev : Symbol → Nat → PRes) (s : List Char) :
    Symbol → Nat → PRes
  | .char c, pos => some (noResShell (charItrForTry (fun ch => ch = c) s pos))
  | .explChar c mk, pos =>
      some (oneResShell mk (charItrForTry (fun ch => ch = c) s pos))
  | .charNot c mk, pos =>
      some (oneResShell mk (charItrForTry (fun ch => ch ≠ c) s pos))
  | .chars cs mk, pos =>
      some (oneResShell mk (charItrForTry (fun ch => cs.contains ch) s pos))
  | .charsNot cs mk, pos =>
      some (oneResShell mk (charItrForTry (fun ch => !cs.contains ch) s pos))
  | .charsNotEsc cs esc mk, pos =>
      some (oneResShell mk
        (charEscItrForTry (fun ch => ch = esc) (fun ch => !cs.contains ch)
          s pos))
  | .seq symbols mk, pos =>
      match seqItrForTry ev symbols pos with
      | none => none
      | some r =>
          some (if nsyms symbols = 0 then noResShell r
                else if nsyms symbols = 1 then
                  oneResShell (mk.map (fun f v => f [v])) r
                else manyResShell mk r)
  | .ignore symbols, pos =>
      match seqItrForTry ev symbols pos with
      | none => none
      | some r => some (noResShell r)
  | .exceptSym b e, pos =>
      match exceptItrForTry (fun p => ev b p) (fun p => ev e p) pos with
      | none => none
      | some r => some (oneResShell none r)
  | .explStr lit mk, pos => some (strMakerShell mk (strItrForTry lit s pos))
  | .rep child mn mx mk, pos =>
      match repItrForTry (fun p => ev child p) mn mx s.length pos with
      | none => none
      | some r => some (manyResShell mk r)
  | .ignoreRep child mn mx, pos =>
      match repItrForTry (fun p => ev child p) mn mx s.length pos with
      | none => none
      | some r => some (noResShell r)
  | .repStr child mn mx mk, pos =>
      match repItrForTry (fun p => ev child p) mn mx s.length pos with
      | none => none
      | some r => some (strMakerShell mk r)
  | .opt child mk nv, pos =>
      match repItrForTry (fun p => ev child p) none (some 1) s.length pos with
      | none => none
      | some (.error e) => some (.error e)
      | some (.ok (pos1, vals)) => some (.ok (pos1, [optMake mk nv vals]))
  | .orSym symbols mk, pos =>
      match orItrForTry ev symbols pos with
      | none => none
      | some r => some (oneResShell mk r)
  | .chain symbols mk, pos =>
      match seqItrForTry ev symbols pos with
      | none => none
      | some (.error e) => some (.error e)
      | some (.ok (pos1, vals)) =>
          match chainFlatten vals with
          | .error e => some (.error e)
          | .ok flat => some (.ok (pos1, [applyManyMaker mk flat]))

/-- The evaluator: SymbolABC.tryitr of a node on the cursor state
(sequence and position).  The fuel bounds the recursion depth through
child symbols; grammars in this development are finite trees, so any
fuel above the tree height gives the defined result. -/
def evalS : Nat → Symbol → List Char → Nat → PRes
  | 0, _, _, _ => none
  | fuel + 1, sym, s, pos => evalBody (fun c p => evalS fuel c s p) s sym pos

/-- SymbolABC.trystr: wrap the sequence in a fresh cursor, run tryitr,
take the first produced value (tuple(...)[0], an IndexError when the
symbol yielded no value), then - when use_all is set and the cursor is
not at end of input - raise NotAllCharsUsed; otherwise return the
value. -/
def trystr (fuel : Nat) (sym : Symbol) (s : String) (useAll : Bool) :
    Option (Except Err Val) :=
  match evalS fuel sym s.data 0 with
  | none => none
  | some (.error e) => some (.error e)
  | some (.ok (pos, vals)) =>
      match vals with
      | [] => some (.error .indexError)
      | v :: _ =>
          if useAll = true ∧ pos < s.data.length then
            some (.error .notAllCharsUsed)
          else some (.ok v)

/-! Derived constructors, mirroring the __init__ methods that build one
symbol out of others. -/

/-- Str(chseq): StrABC builds a Seq of ExplChar children and
NoResSymbol suppresses the result, which is exactly Ignore over those
children. -/
def StrC (lit : List Char) : Symbol :=
  .ignore (lit.map (fun c => .explChar c none))

/-- Rep(*symbols, child_maker, nmin, nmax, maker): RepABC.__init__
wraps the symbols into one Seq child with the child maker. -/
def RepC (symbols : List Symbol) (childMaker : Option (List Val → Val))
    (nmin nmax : Option Nat) (maker : Option (List Val → Val)) : Symbol :=
  .rep (.seq symbols childMaker) nmin nmax maker

/-- RepStr(*symbols, nmin, nmax, maker) (RepABC with a StrMaker result;
no child maker). -/
def RepStrC (symbols : List Symbol) (nmin nmax : Option Nat)
    (maker : Option (Val → Val)) : Symbol :=
  .repStr (.seq symbols none) nmin nmax maker

/-- IgnoreRep(*symbols, child_maker, nmin, nmax). -/
def IgnoreRepC (symbols : List Symbol) (childMaker : Option (List Val → Val))
    (nmin nmax : Option Nat) : Symbol :=
  .ignoreRep (.seq symbols childMaker) nmin nmax

/-- Opt(*symbols, child_maker, maker, none_val): Rep with nmax = 1 and
no nmin, plus the overridden make_from_itr carried by the opt node. -/
def OptC (symbols : List Symbol) (childMaker : Option (List Val → Val))
    (maker : Option (List Val → Val)) (noneVal : Option Val) : Symbol :=
  .opt (.seq symbols childMaker) maker noneVal

/-- IgnoreOpt(*symbols): IgnoreRep with nmax = 1. -/
def IgnoreOptC (symbols : List Symbol) : Symbol :=
  IgnoreRepC symbols none none (some 1)

/-- RepSep(*symbols, sep, maker): a Seq holding
Chain(Rep(val, sep), Opt(val), maker = maker) where val is the single
given symbol (a Seq of them when several are given). -/
def RepSepC (symbols : List Symbol) (sep : Symbol)
    (maker : Option (List Val → Val)) : Symbol :=
  .seq [.chain
          [RepC [(match symbols with | [s] => s | _ => .seq symbols none),
                 sep] none none none none,
           OptC [(match symbols with | [s] => s | _ => .seq symbols none)]
             none none none]
          maker]
       none

/-! ## Theorems -/

/-- The last element (with default) of a list is monotone in the
default value. -/
theorem getLastD_mono_default (ps : List Nat) (p q : Nat) (h : p ≤ q) :
    ps.getLastD p ≤ ps.getLastD q := by
  cases ps with
  | nil => simpa using h
  | cons a l => rw [List.getLastD_cons, List.getLastD_cons]

/-- A single cursor operation keeps the stack ordered (every child at
or beyond its parent) and never moves the root position backwards. -/
theorem opStep_sound (len : Nat) (op : CursorOp) (st st2 : List Nat)
    (h : opStep len op st = some st2) (hc : List.Chain' (· ≥ ·) st) :
    List.Chain' (· ≥ ·) st2 ∧ st.getLastD 0 ≤ st2.getLastD 0 := by
  cases op with
  | next =>
    cases st with
    | nil => simp [opStep] at h
    | cons p ps =>
      simp only [opStep, Option.some.injEq] at h
      subst h
      rcases List.chain'_cons'.mp hc with ⟨h1, h2⟩
      refine ⟨List.chain'_cons'.mpr ⟨?_, h2⟩, ?_⟩
      · intro y hy
        have := h1 y hy
        split <;> omega
      · simp only [List.getLastD_cons]
        exact getLastD_mono_default ps p _ (by split <;> omega)
  | beginAttempt =>
    cases st with
    | nil => simp [opStep] at h
    | cons p ps =>
      simp only [opStep, Option.some.injEq] at h
      subst h
      rcases List.chain'_cons'.mp hc with ⟨h1, h2⟩
      refine ⟨List.chain'_cons'.mpr ⟨?_, List.chain'_cons'.mpr ⟨h1, h2⟩⟩, ?_⟩
      · intro y hy
        simp at hy
        omega
      · rw [List.getLastD_cons, List.getLastD_cons, List.getLastD_cons]
  | endAttempt c =>
    cases st with
    | nil => simp [opStep] at h
    | cons child rest =>
      cases rest with
      | nil => simp [opStep] at h
      | cons parent ps =>
        simp only [opStep, Option.some.injEq] at h
        subst h
        rcases List.chain'_cons'.mp hc with ⟨h1, h2⟩
        rcases List.chain'_cons'.mp h2 with ⟨h3, h4⟩
        have hcp : parent ≥ child ∨ child ≥ parent := by
          right
          exact h1 parent (by simp)
        refine ⟨List.chain'_cons'.mpr ⟨?_, h4⟩, ?_⟩
        · intro y hy
          have := h3 y hy
          have := h1 parent (by simp)
          split <;> omega
        · simp only [List.getLastD_cons]
          refine getLastD_mono_default ps parent _ ?_
          have := h1 parent (by simp)
          split <;> omega

/-- Running any list of cursor operations keeps the stack ordered and
never moves the root position backwards. -/
theorem runOps_sound (len : Nat) (ops : List CursorOp) :
    ∀ st st2, runOps len ops st = some st2 → List.Chain' (· ≥ ·) st →
      List.Chain' (· ≥ ·) st2 ∧ st.getLastD 0 ≤ st2.getLastD 0 := by
  induction ops with
  | nil =>
    intro st st2 h hc
    simp only [runOps, Option.some.injEq] at h
    subst h
    exact ⟨hc, le_refl _⟩
  | cons op ops ih =>
    intro st st2 h hc
    simp only [runOps] at h
    cases hmid : opStep len op st with
    | none => rw [hmid] at h; simp at h
    | some mid =>
      rw [hmid] at h
      simp only [Option.some_bind] at h
      rcases opStep_sound len op st mid hmid hc with ⟨hc1, hle1⟩
      rcases ih mid st2 h hc1 with ⟨hc2, hle2⟩
      exact ⟨hc2, le_trans hle1 hle2⟩

/-- C2: beginAttempt (SrcItr.__enter__) creates a child cursor over the
same sequence at the parent's current position; a committed endAttempt
(SrcItr.__exit__ with no exception) sets the parent's position to the
child's final position, and an uncommitted one (an exception occurred)
leaves the parent's position exactly as it was when the attempt began;
consequently along any sequence of next, beginAttempt and endAttempt
operations the stack of cursors stays ordered (each child at or beyond
its parent) and the root cursor position never decreases. -/
theorem C2_cursor_transactions :
    (∀ len p ps, opStep len .beginAttempt (p :: ps) = some (p :: p :: ps)) ∧
    (∀ len child parent ps,
        opStep len (.endAttempt true) (child :: parent :: ps) =
          some (child :: ps)) ∧
    (∀ len child parent ps,
        opStep len (.endAttempt false) (child :: parent :: ps) =
          some (parent :: ps)) ∧
    (∀ len ops st st2, runOps len ops st = some st2 →
        List.Chain' (· ≥ ·) st →
        List.Chain' (· ≥ ·) st2 ∧ st.getLastD 0 ≤ st2.getLastD 0) := by
  refine ⟨fun len p ps => rfl, fun len c pr ps => rfl, fun len c pr ps => rfl,
    runOps_sound⟩

/-- Witness for C2 at a concrete run: begin an attempt, advance the
child twice, commit; then begin another attempt, advance, roll back. -/
theorem C2_cursor_transactions_witness :
    List.Chain' (· ≥ ·) ([2] : List Nat) ∧
      ([0] : List Nat).getLastD 0 ≤ ([2] : List Nat).getLastD 0 :=
  C2_cursor_transactions.2.2.2 9
    [.beginAttempt, .next, .next, .endAttempt true,
     .beginAttempt, .next, .endAttempt false]
    [0] [2] (by decide) (List.chain'_singleton 0)

/-- Unfolding equation for the evaluator at positive fuel. -/
theorem evalS_succ (fuel : Nat) (sym : Symbol) (s : List Char) (pos : Nat) :
    evalS (fuel + 1) sym s pos =
      evalBody (fun c p => evalS fuel c s p) s sym pos := rfl

/-- srcNext fails only with EndOfInput (StopSrcItr). -/
theorem srcNext_error (s : List Char) (pos : Nat) (e : Err)
    (h : srcNext s pos = .error e) : e = .endOfInput := by
  unfold srcNext at h
  split at h <;> simp_all

/-- CharABC.itr_for_try fails only with EndOfInput or
SymbolTryFailed. -/
theorem charItrForTry_error (valid : Char → Bool) (s : List Char) (pos : Nat)
    (e : Err) (h : charItrForTry valid s pos = .error e) :
    e = .endOfInput ∨ e = .tryFailed := by
  unfold charItrForTry at h
  cases hn : srcNext s pos with
  | error e2 =>
    rw [hn] at h
    simp only [Except.error.injEq] at h
    subst h
    exact Or.inl (srcNext_error s pos _ hn)
  | ok cp =>
    rw [hn] at h
    by_cases hv : valid cp.1 = true <;> simp_all

/-- CharWithEscapeABC.itr_for_try fails only with EndOfInput or
SymbolTryFailed. -/
theorem charEscItrForTry_error (isEsc valid : Char → Bool) (s : List Char)
    (pos : Nat) (e : Err)
    (h : charEscItrForTry isEsc valid s pos = .error e) :
    e = .endOfInput ∨ e = .tryFailed := by
  unfold charEscItrForTry at h
  cases hn : srcNext s pos with
  | error e2 =>
    rw [hn] at h
    simp only [Except.error.injEq] at h
    subst h
    exact Or.inl (srcNext_error s pos _ hn)
  | ok cp =>
    rw [hn] at h
    by_cases he : isEsc cp.1 = true
    · simp only [he, if_true] at h
      cases hn2 : srcNext s cp.2 with
      | error e3 =>
        rw [hn2] at h
        simp only [Except.error.injEq] at h
        subst h
        exact Or.inl (srcNext_error s cp.2 _ hn2)
      | ok cp2 => rw [hn2] at h; simp at h
    · by_cases hv : valid cp.1 = true <;> simp_all

/-- StrABC matching fails only with EndOfInput or SymbolTryFailed. -/
theorem strItrForTry_error (lit : List Char) (s : List Char) (pos : Nat)
    (e : Err) (h : strItrForTry lit s pos = .error e) :
    e = .endOfInput ∨ e = .tryFailed := by
  induction lit generalizing pos with
  | nil => simp [strItrForTry] at h
  | cons c cs ih =>
    unfold strItrForTry at h
    split at h
    · rename_i e2 heq
      simp only [Except.error.injEq] at h
      subst h
      exact Or.inl (srcNext_error s pos _ heq)
    · rename_i ch p1 heq
      by_cases hc : ch = c
      · rw [if_pos hc] at h
        split at h
        · rename_i e3 heq2
          simp only [Except.error.injEq] at h
          subst h
          exact ih p1 heq2
        · rename_i p2 vals heq2
          simp at h
      · rw [if_neg hc] at h
        simp only [Except.error.injEq] at h
        subst h
        exact Or.inr rfl

/-- str.join fails only with TypeError. -/
theorem strJoin_error (vals : List Val) (e : Err)
    (h : strJoin vals = .error e) : e = .typeError := by
  induction vals with
  | nil => simp [strJoin] at h
  | cons v rest ih =>
    cases v with
    | vstr a =>
      unfold strJoin at h
      cases hr : strJoin rest with
      | error e2 =>
        rw [hr] at h
        simp only [Except.error.injEq] at h
        subst h
        exact ih hr
      | ok b => rw [hr] at h; simp at h
    | vtuple vs =>
      simp only [strJoin, Except.error.injEq] at h
      exact h.symm
    | vnone =>
      simp only [strJoin, Except.error.injEq] at h
      exact h.symm

/-- chain.from_iterable over a single value fails only with
TypeError. -/
theorem pyIterVal_error (v : Val) (e : Err) (h : pyIterVal v = .error e) :
    e = .typeError := by
  cases v <;> simp_all [pyIterVal]

/-- chain.from_iterable fails only with TypeError. -/
theorem chainFlatten_error (vals : List Val) (e : Err)
    (h : chainFlatten vals = .error e) : e = .typeError := by
  induction vals with
  | nil => simp [chainFlatten] at h
  | cons v rest ih =>
    unfold chainFlatten at h
    cases hv : pyIterVal v with
    | error e2 =>
      rw [hv] at h
      simp only [Except.error.injEq] at h
      subst h
      exact pyIterVal_error v _ hv
    | ok vs =>
      rw [hv] at h
      cases hr : chainFlatten rest with
      | error e3 =>
        rw [hr] at h
        simp only [Except.error.injEq] at h
        subst h
        exact ih hr
      | ok rest2 => rw [hr] at h; simp at h

/-- The OneResSymbol shell passes errors through, adding only
IndexError. -/
theorem oneResShell_error (mk : Option (Val → Val)) (r : ItrRes) (e : Err)
    (h : oneResShell mk r = .error e) : r = .error e ∨ e = .indexError := by
  cases r with
  | error e2 => simp_all [oneResShell]
  | ok pr =>
    rcases pr with ⟨p, vals⟩
    cases vals <;> simp_all [oneResShell]

/-- The NoResSymbol shell passes errors through unchanged. -/
theorem noResShell_error (r : ItrRes) (e : Err)
    (h : noResShell r = .error e) : r = .error e := by
  cases r with
  | error e2 => simp_all [noResShell]
  | ok pr => rcases pr with ⟨p, vals⟩; simp [noResShell] at h

/-- The NoResSymbol shell yields no values on success. -/
theorem noResShell_ok (r : ItrRes) (p : Nat) (vs : List Val)
    (h : noResShell r = .ok (p, vs)) : vs = [] := by
  cases r with
  | error e2 => simp [noResShell] at h
  | ok pr =>
    rcases pr with ⟨p1, vals⟩
    simp only [noResShell, Except.ok.injEq, Prod.mk.injEq] at h
    exact h.2.symm

/-- The ManyResSymbol shell passes errors through unchanged. -/
theorem manyResShell_error (mk : Option (List Val → Val)) (r : ItrRes)
    (e : Err) (h : manyResShell mk r = .error e) : r = .error e := by
  cases r with
  | error e2 => simp_all [manyResShell]
  | ok pr => rcases pr with ⟨p, vals⟩; simp [manyResShell] at h

/-- The StrMaker shell passes errors through, adding only TypeError
(from the join). -/
theorem strMakerShell_error (mk : Option (Val → Val)) (r : ItrRes) (e : Err)
    (h : strMakerShell mk r = .error e) : r = .error e ∨ e = .typeError := by
  cases r with
  | error e2 => simp_all [strMakerShell]
  | ok pr =>
    rcases pr with ⟨p, vals⟩
    simp only [strMakerShell] at h
    cases hj : strJoin vals with
    | error e2 =>
      rw [hj] at h
      simp only [Except.error.injEq] at h
      subst h
      exact Or.inr (strJoin_error vals _ hj)
    | ok joined => rw [hj] at h; simp at h

/-- SeqABC.itr_for_try errors come from a child evaluation. -/
theorem seqItrForTry_error (ev : Symbol → Nat → PRes) (l : List Symbol)
    (pos : Nat) (e : Err)
    (h : seqItrForTry ev l pos = some (.error e)) :
    ∃ c pos2, c ∈ l ∧ ev c pos2 = some (.error e) := by
  induction l generalizing pos with
  | nil => simp [seqItrForTry] at h
  | cons c rest ih =>
    unfold seqItrForTry at h
    split at h
    · simp at h
    · rename_i e2 heq
      simp only [Option.some.injEq, Except.error.injEq] at h
      subst h
      exact ⟨c, pos, List.mem_cons_self c rest, heq⟩
    · rename_i p1 vals heq
      split at h
      · simp at h
      · rename_i e2 heq2
        simp only [Option.some.injEq, Except.error.injEq] at h
        subst h
        rcases ih p1 heq2 with ⟨c2, p2, hmem, hev⟩
        exact ⟨c2, p2, List.mem_cons_of_mem c hmem, hev⟩
      · rename_i p2 vals2 heq2
        simp at h

/-- Errors of the bounded Rep loop come from an iteration of the child
and are neither SymbolTryFailed nor StopSrcItr (the loop catches those
and converts them into a break). -/
theorem repLoopB_error (ev : Nat → PRes) (rem : Nat) :
    ∀ (idx pos : Nat) (acc : List Val) (e : Err),
      repLoopB ev rem idx pos acc = some (.error e) →
      ∃ p2, ev p2 = some (.error e) ∧ e ≠ .tryFailed ∧ e ≠ .endOfInput := by
  induction rem with
  | zero => intro idx pos acc e h; simp [repLoopB] at h
  | succ rem ih =>
    intro idx pos acc e h
    unfold repLoopB at h
    cases hc : ev pos with
    | none => rw [hc] at h; simp at h
    | some r =>
      rw [hc] at h
      cases r with
      | error e2 =>
        cases e2 with
        | tryFailed => simp at h
        | endOfInput => simp at h
        | notAllCharsUsed =>
          simp only [Option.some.injEq, Except.error.injEq] at h
          subst h
          exact ⟨pos, hc, by simp, by simp⟩
        | indexError =>
          simp only [Option.some.injEq, Except.error.injEq] at h
          subst h
          exact ⟨pos, hc, by simp, by simp⟩
        | typeError =>
          simp only [Option.some.injEq, Except.error.injEq] at h
          subst h
          exact ⟨pos, hc, by simp, by simp⟩
      | ok pr =>
        rcases pr with ⟨p1, vals⟩
        exact ih (idx + 1) p1 (acc ++ vals) e h

/-- Errors of the unbounded Rep loop come from an iteration of the
child and are neither SymbolTryFailed nor StopSrcItr. -/
theorem repLoopN_error (ev : Nat → PRes) (cap : Nat) :
    ∀ (idx pos : Nat) (acc : List Val) (e : Err),
      repLoopN ev cap idx pos acc = some (.error e) →
      ∃ p2, ev p2 = some (.error e) ∧ e ≠ .tryFailed ∧ e ≠ .endOfInput := by
  induction cap with
  | zero => intro idx pos acc e h; simp [repLoopN] at h
  | succ cap ih =>
    intro idx pos acc e h
    unfold repLoopN at h
    cases hc : ev pos with
    | none => rw [hc] at h; simp at h
    | some r =>
      rw [hc] at h
      cases r with
      | error e2 =>
        cases e2 with
        | tryFailed => simp at h
        | endOfInput => simp at h
        | notAllCharsUsed =>
          simp only [Option.some.injEq, Except.error.injEq] at h
          subst h
          exact ⟨pos, hc, by simp, by simp⟩
        | indexError =>
          simp only [Option.some.injEq, Except.error.injEq] at h
          subst h
          exact ⟨pos, hc, by simp, by simp⟩
        | typeError =>
          simp only [Option.some.injEq, Except.error.injEq] at h
          subst h
          exact ⟨pos, hc, by simp, by simp⟩
      | ok pr =>
        rcases pr with ⟨p1, vals⟩
        exact ih (idx + 1) p1 (acc ++ vals) e h

/-- Errors of the Rep loop (bounded or not) come from an iteration of
the child and are neither SymbolTryFailed nor StopSrcItr. -/
theorem repLoop_error (ev : Nat → PRes) (nmax : Option Nat) (slen pos : Nat)
    (e : Err) (h : repLoop ev nmax slen pos = some (.error e)) :
    ∃ p2, ev p2 = some (.error e) ∧ e ≠ .tryFailed ∧ e ≠ .endOfInput := by
  cases nmax with
  | some mx => exact repLoopB_error ev mx 0 pos [] e h
  | none => exact repLoopN_error ev (slen - pos + 1) 0 pos [] e h

/-- RepABC.itr_for_try fails either with its own SymbolTryFailed (the
min check) or with a propagated child error that is neither
SymbolTryFailed nor StopSrcItr. -/
theorem repItrForTry_error (ev : Nat → PRes) (mn mx : Option Nat)
    (slen pos : Nat) (e : Err)
    (h : repItrForTry ev mn mx slen pos = some (.error e)) :
    e = .tryFailed ∨
      (∃ p2, ev p2 = some (.error e) ∧ e ≠ .tryFailed ∧ e ≠ .endOfInput) := by
  unfold repItrForTry at h
  cases hl : repLoop ev mx slen pos with
  | none => rw [hl] at h; simp [repMinCheck] at h
  | some r =>
    rw [hl] at h
    cases r with
    | error e2 =>
      simp only [repMinCheck, Option.some.injEq, Except.error.injEq] at h
      subst h
      exact Or.inr (repLoop_error ev mx slen pos _ hl)
    | ok tr =>
      rcases tr with ⟨i, p1, vals⟩
      simp only [repMinCheck] at h
      cases mn with
      | none => simp at h
      | some mnv =>
        by_cases hi : i < mnv <;> simp_all

/-- OR.itr_for_try fails either with its own SymbolTryFailed (every
alternative failed) or with a propagated alternative error that is
neither SymbolTryFailed nor StopSrcItr. -/
theorem orItrForTry_error (ev : Symbol → Nat → PRes) (l : List Symbol)
    (pos : Nat) (e : Err)
    (h : orItrForTry ev l pos = some (.error e)) :
    e = .tryFailed ∨
      (∃ c pos2, c ∈ l ∧ ev c pos2 = some (.error e) ∧
        e ≠ .tryFailed ∧ e ≠ .endOfInput) := by
  induction l with
  | nil =>
    simp only [orItrForTry, Option.some.injEq, Except.error.injEq] at h
    exact Or.inl h.symm
  | cons a rest ih =>
    unfold orItrForTry at h
    cases hc : ev a pos with
    | none => rw [hc] at h; simp at h
    | some r =>
      rw [hc] at h
      cases r with
      | ok pr => simp at h
      | error e2 =>
        cases e2 with
        | tryFailed =>
          rcases ih h with h2 | ⟨c, p2, hmem, hev, hne⟩
          · exact Or.inl h2
          · exact Or.inr ⟨c, p2, List.mem_cons_of_mem a hmem, hev, hne⟩
        | endOfInput =>
          rcases ih h with h2 | ⟨c, p2, hmem, hev, hne⟩
          · exact Or.inl h2
          · exact Or.inr ⟨c, p2, List.mem_cons_of_mem a hmem, hev, hne⟩
        | notAllCharsUsed =>
          simp only [Option.some.injEq, Except.error.injEq] at h
          subst h
          exact Or.inr ⟨a, pos, List.mem_cons_self a rest, hc, by simp, by simp⟩
        | indexError =>
          simp only [Option.some.injEq, Except.error.injEq] at h
          subst h
          exact Or.inr ⟨a, pos, List.mem_cons_self a rest, hc, by simp, by simp⟩
        | typeError =>
          simp only [Option.some.injEq, Except.error.injEq] at h
          subst h
          exact Or.inr ⟨a, pos, List.mem_cons_self a rest, hc, by simp, by simp⟩

/-- Except.itr_for_try fails with its own SymbolTryFailed, an error of
the base symbol, or a non-SymbolTryFailed error of the excluded
symbol. -/
theorem exceptItrForTry_error (evBase evExcl : Nat → PRes) (pos : Nat)
    (e : Err) (h : exceptItrForTry evBase evExcl pos = some (.error e)) :
    e = .tryFailed ∨ evBase pos = some (.error e) ∨
      evExcl pos = some (.error e) := by
  unfold exceptItrForTry at h
  cases hc : evExcl pos with
  | none => rw [hc] at h; simp at h
  | some r =>
    rw [hc] at h
    cases r with
    | ok pr =>
      simp only [Option.some.injEq, Except.error.injEq] at h
      subst h
      exact Or.inl rfl
    | error e2 =>
      cases e2 with
      | tryFailed => exact Or.inr (Or.inl h)
      | endOfInput =>
        simp only [Option.some.injEq, Except.error.injEq] at h
        subst h
        exact Or.inr (Or.inr rfl)
      | notAllCharsUsed =>
        simp only [Option.some.injEq, Except.error.injEq] at h
        subst h
        exact Or.inr (Or.inr rfl)
      | indexError =>
        simp only [Option.some.injEq, Except.error.injEq] at h
        subst h
        exact Or.inr (Or.inr rfl)
      | typeError =>
        simp only [Option.some.injEq, Except.error.injEq] at h
        subst h
        exact Or.inr (Or.inr rfl)
/-- The evaluator never raises NotAllCharsUsed: that error belongs to
the top-level trystr alone. -/
theorem evalS_no_nacu (fuel : Nat) :
    ∀ (sym : Symbol) (s : List Char) (pos : Nat),
      evalS fuel sym s pos ≠ some (.error .notAllCharsUsed) := by
  induction fuel with
  | zero => intro sym s pos h; simp [evalS] at h
  | succ fuel ih =>
    intro sym s pos h
    rw [evalS_succ] at h
    cases sym with
    | char c =>
      simp only [evalBody, Option.some.injEq] at h
      rcases charItrForTry_error _ _ _ _ (noResShell_error _ _ h) with h1 | h1
        <;> simp at h1
    | explChar c mk =>
      simp only [evalBody, Option.some.injEq] at h
      rcases oneResShell_error _ _ _ h with h1 | h1
      · rcases charItrForTry_error _ _ _ _ h1 with h2 | h2 <;> simp at h2
      · simp at h1
    | charNot c mk =>
      simp only [evalBody, Option.some.injEq] at h
      rcases oneResShell_error _ _ _ h with h1 | h1
      · rcases charItrForTry_error _ _ _ _ h1 with h2 | h2 <;> simp at h2
      · simp at h1
    | chars cs mk =>
      simp only [evalBody, Option.some.injEq] at h
      rcases oneResShell_error _ _ _ h with h1 | h1
      · rcases charItrForTry_error _ _ _ _ h1 with h2 | h2 <;> simp at h2
      · simp at h1
    | charsNot cs mk =>
      simp only [evalBody, Option.some.injEq] at h
      rcases oneResShell_error _ _ _ h with h1 | h1
      · rcases charItrForTry_error _ _ _ _ h1 with h2 | h2 <;> simp at h2
      · simp at h1
    | charsNotEsc cs esc mk =>
      simp only [evalBody, Option.some.injEq] at h
      rcases oneResShell_error _ _ _ h with h1 | h1
      · rcases charEscItrForTry_error _ _ _ _ _ h1 with h2 | h2 <;> simp at h2
      · simp at h1
    | seq symbols mk =>
      simp only [evalBody] at h
      split at h
      · simp at h
      · rename_i r heq
        simp only [Option.some.injEq] at h
        split at h
        · have h1 := noResShell_error _ _ h
          subst h1
          rcases seqItrForTry_error _ _ _ _ heq with ⟨c2, p2, _, hev⟩
          exact ih c2 s p2 hev
        · split at h
          · rcases oneResShell_error _ _ _ h with h1 | h1
            · subst h1
              rcases seqItrForTry_error _ _ _ _ heq with ⟨c2, p2, _, hev⟩
              exact ih c2 s p2 hev
            · simp at h1
          · have h1 := manyResShell_error _ _ _ h
            subst h1
            rcases seqItrForTry_error _ _ _ _ heq with ⟨c2, p2, _, hev⟩
            exact ih c2 s p2 hev
    | ignore symbols =>
      simp only [evalBody] at h
      split at h
      · simp at h
      · rename_i r heq
        simp only [Option.some.injEq] at h
        have h1 := noResShell_error _ _ h
        subst h1
        rcases seqItrForTry_error _ _ _ _ heq with ⟨c2, p2, _, hev⟩
        exact ih c2 s p2 hev
    | exceptSym b ex =>
      simp only [evalBody] at h
      split at h
      · simp at h
      · rename_i r heq
        simp only [Option.some.injEq] at h
        rcases oneResShell_error _ _ _ h with h1 | h1
        · subst h1
          rcases exceptItrForTry_error _ _ _ _ heq with h2 | h2 | h2
          · simp at h2
          · exact ih b s pos h2
          · exact ih ex s pos h2
        · simp at h1
    | explStr lit mk =>
      simp only [evalBody, Option.some.injEq] at h
      rcases strMakerShell_error _ _ _ h with h1 | h1
      · rcases strItrForTry_error _ _ _ _ h1 with h2 | h2 <;> simp at h2
      · simp at h1
    | rep child mn mx mk =>
      simp only [evalBody] at h
      split at h
      · simp at h
      · rename_i r heq
        simp only [Option.some.injEq] at h
        have h1 := manyResShell_error _ _ _ h
        subst h1
        rcases repItrForTry_error _ _ _ _ _ _ heq with h2 | ⟨p2, hev, _, _⟩
        · simp at h2
        · exact ih child s p2 hev
    | ignoreRep child mn mx =>
      simp only [evalBody] at h
      split at h
      · simp at h
      · rename_i r heq
        simp only [Option.some.injEq] at h
        have h1 := noResShell_error _ _ h
        subst h1
        rcases repItrForTry_error _ _ _ _ _ _ heq with h2 | ⟨p2, hev, _, _⟩
        · simp at h2
        · exact ih child s p2 hev
    | repStr child mn mx mk =>
      simp only [evalBody] at h
      split at h
      · simp at h
      · rename_i r heq
        simp only [Option.some.injEq] at h
        rcases strMakerShell_error _ _ _ h with h1 | h1
        · subst h1
          rcases repItrForTry_error _ _ _ _ _ _ heq with h2 | ⟨p2, hev, _, _⟩
          · simp at h2
          · exact ih child s p2 hev
        · simp at h1
    | opt child mk nv =>
      simp only [evalBody] at h
      split at h
      · simp at h
      · rename_i e2 heq
        simp only [Option.some.injEq, Except.error.injEq] at h
        subst h
        rcases repItrForTry_error _ _ _ _ _ _ heq with h2 | ⟨p2, hev, _, _⟩
        · simp at h2
        · exact ih child s p2 hev
      · rename_i p1 vals heq
        simp at h
    | orSym symbols mk =>
      simp only [evalBody] at h
      split at h
      · simp at h
      · rename_i r heq
        simp only [Option.some.injEq] at h
        rcases oneResShell_error _ _ _ h with h1 | h1
        · subst h1
          rcases orItrForTry_error _ _ _ _ heq with h2 | ⟨c2, p2, _, hev, _, _⟩
          · simp at h2
          · exact ih c2 s p2 hev
        · simp at h1
    | chain symbols mk =>
      simp only [evalBody] at h
      split at h
      · simp at h
      · rename_i e2 heq
        simp only [Option.some.injEq, Except.error.injEq] at h
        subst h
        rcases seqItrForTry_error _ _ _ _ heq with ⟨c2, p2, _, hev⟩
        exact ih c2 s p2 hev
      · rename_i p1 vals heq
        split at h
        · rename_i e2 heq2
          simp only [Option.some.injEq, Except.error.injEq] at h
          subst h
          have := chainFlatten_error _ _ heq2
          simp at this
        · simp at h

/-- A Rep node never fails with StopSrcItr: end of input inside an
iteration is caught exactly like SymbolTryFailed and only stops the
loop. -/
theorem evalS_rep_no_eoi (fuel : Nat) (child : Symbol) (mn mx : Option Nat)
    (mk : Option (List Val → Val)) (s : List Char) (pos : Nat) :
    evalS fuel (.rep child mn mx mk) s pos ≠ some (.error .endOfInput) := by
  cases fuel with
  | zero => simp [evalS]
  | succ fuel =>
    intro h
    rw [evalS_succ] at h
    simp only [evalBody] at h
    split at h
    · simp at h
    · rename_i r heq
      simp only [Option.some.injEq] at h
      have h1 := manyResShell_error _ _ _ h
      subst h1
      rcases repItrForTry_error _ _ _ _ _ _ heq with h2 | ⟨p2, hev, _, hne⟩
      · simp at h2
      · simp at hne

/-- An Opt node never fails with StopSrcItr. -/
theorem evalS_opt_no_eoi (fuel : Nat) (child : Symbol)
    (mk : Option (List Val → Val)) (nv : Option Val) (s : List Char)
    (pos : Nat) :
    evalS fuel (.opt child mk nv) s pos ≠ some (.error .endOfInput) := by
  cases fuel with
  | zero => simp [evalS]
  | succ fuel =>
    intro h
    rw [evalS_succ] at h
    simp only [evalBody] at h
    split at h
    · simp at h
    · rename_i e2 heq
      simp only [Option.some.injEq, Except.error.injEq] at h
      subst h
      rcases repItrForTry_error _ _ _ _ _ _ heq with h2 | ⟨p2, hev, _, hne⟩
      · simp at h2
      · simp at hne
    · rename_i p1 vals heq
      simp at h

/-- An OR node never fails with StopSrcItr: end of input in an
alternative is caught exactly like SymbolTryFailed and only moves to
the next alternative. -/
theorem evalS_or_no_eoi (fuel : Nat) (alts : List Symbol)
    (mk : Option (Val → Val)) (s : List Char) (pos : Nat) :
    evalS fuel (.orSym alts mk) s pos ≠ some (.error .endOfInput) := by
  cases fuel with
  | zero => simp [evalS]
  | succ fuel =>
    intro h
    rw [evalS_succ] at h
    simp only [evalBody] at h
    split at h
    · simp at h
    · rename_i r heq
      simp only [Option.some.injEq] at h
      rcases oneResShell_error _ _ _ h with h1 | h1
      · subst h1
        rcases orItrForTry_error _ _ _ _ heq with h2 | ⟨c2, p2, _, hev, _, hne⟩
        · simp at h2
        · simp at hne
      · simp at h1

/-- C1 (failing input for the code bug): Rep(ExplChar(a), min = 1,
max = 1) applied to the input a runs exactly one successful iteration
and should therefore succeed with the value tuple (a,) - the number of
successful repetitions, 1, is not below min.  The code fails instead:
after range(max) is exhausted, RepABC.itr_for_try compares the loop
variable i (which equals max - 1 = 0, not the success count) against
min, so every Rep with min = max >= 1 raises SymbolTryFailed. -/
theorem C1_rep_min_eq_max_failing_input :
    trystr 20 (RepC [.explChar 'a' none] none (some 1) (some 1) none) "a" true
        = some (.error .tryFailed) ∧
      trystr 20 (RepC [.explChar 'a' none] none (some 1) (some 1) none) "a"
          true ≠ some (.ok (.vtuple [.vstr "a"])) ∧
      trystr 20 (RepC [.explChar 'a' none] none (some 2) (some 4) none)
          "aaaaaa" false = some (.ok (.vtuple
            [.vstr "a", .vstr "a", .vstr "a", .vstr "a"])) := by
  refine ⟨by decide, by decide, by decide⟩

/-- C3 (amended): NotAllCharsUsed is raised at the top level only (the
evaluator for symbols never produces it); Rep, Opt and OR absorb both
SymbolTryFailed and StopSrcItr from their children - they treat the two
identically, and never surface StopSrcItr as their own failure; the
errors surfaced by trystr are an unrecovered failure of the outermost
symbol (SymbolTryFailed or StopSrcItr), NotAllCharsUsed, or a
Python-level IndexError / TypeError when the result protocol is misused
(for example a result-suppressed outermost symbol).  The final two
conjuncts exhibit the identical treatment on concrete grammars: the Opt
and OR results are unchanged when a child failing with SymbolTryFailed
is replaced by one failing with StopSrcItr. -/
theorem C3_failure_containment :
    (∀ fuel sym s pos, evalS fuel sym s pos ≠
        some (.error .notAllCharsUsed)) ∧
    (∀ fuel child mn mx mk s pos,
        evalS fuel (.rep child mn mx mk) s pos ≠
          some (.error .endOfInput)) ∧
    (∀ fuel child mk nv s pos,
        evalS fuel (.opt child mk nv) s pos ≠ some (.error .endOfInput)) ∧
    (∀ fuel alts mk s pos,
        evalS fuel (.orSym alts mk) s pos ≠ some (.error .endOfInput)) ∧
    (∀ fuel sym s useAll r, trystr fuel sym s useAll = some r →
        (∃ v, r = .ok v) ∨ r = .error .tryFailed ∨ r = .error .endOfInput ∨
          r = .error .notAllCharsUsed ∨ r = .error .indexError ∨
          r = .error .typeError) ∧
    (evalS 5 (OptC [.explChar 'b' none] none none none) "a".data 0 =
        evalS 5 (OptC [.explStr "ab".data none] none none none) "a".data 0) ∧
    (evalS 5 (.orSym [.explChar 'b' none, .explChar 'a' none] none)
          "a".data 0 =
        evalS 5 (.orSym [.explStr "ab".data none, .explChar 'a' none] none)
          "a".data 0) := by
  refine ⟨evalS_no_nacu, evalS_rep_no_eoi, evalS_opt_no_eoi,
    evalS_or_no_eoi, ?_, by decide, by decide⟩
  intro fuel sym s useAll r h
  cases r with
  | ok v => exact Or.inl ⟨v, rfl⟩
  | error e => cases e <;> simp

/-- Witness for C3 at concrete runs: an Opt whose child fails is not a
StopSrcItr failure, and a failing top-level parse surfaces one of the
five modelled errors. -/
theorem C3_failure_containment_witness :
    (evalS 5 (OptC [.explChar 'b' none] none none none) "a".data 0 ≠
        some (.error .endOfInput)) ∧
    ((∃ v, (Except.error .notAllCharsUsed : Except Err Val) = .ok v) ∨
      (Except.error .notAllCharsUsed : Except Err Val) = .error .tryFailed ∨
      (Except.error .notAllCharsUsed : Except Err Val) = .error .endOfInput ∨
      (Except.error .notAllCharsUsed : Except Err Val) =
        .error .notAllCharsUsed ∨
      (Except.error .notAllCharsUsed : Except Err Val) = .error .indexError ∨
      (Except.error .notAllCharsUsed : Except Err Val) = .error .typeError) :=
  ⟨C3_failure_containment.2.2.1 5 (.seq [.explChar 'b' none] none)
      none none "a".data 0,
    C3_failure_containment.2.2.2.2.1 5
      (.explChar 'a' none) "ab" true (.error .notAllCharsUsed) (by decide)⟩

/-- C3 counterexample to the claim as stated: a result-suppressed
outermost symbol (Char, which matches and consumes but yields no value)
makes trystr raise IndexError - an error that is neither a failure of
the outermost symbol (SymbolTryFailed / StopSrcItr) nor
NotAllCharsUsed, yet it is surfaced to the caller. -/
theorem C3_counterexample_indexerror :
    trystr 5 (.char 'a') "a" true = some (.error .indexError) ∧
      some (.error .indexError) ≠
        (some (.error .tryFailed) : Option (Except Err Val)) ∧
      some (.error .indexError) ≠
        (some (.error .endOfInput) : Option (Except Err Val)) ∧
      some (.error .indexError) ≠
        (some (.error .notAllCharsUsed) : Option (Except Err Val)) := by
  refine ⟨by decide, by decide, by decide, by decide⟩

/-- A result-suppressed symbol yields no values when it succeeds. -/
theorem no_res_ok_nil (fuel : Nat) (sym : Symbol) (s : List Char)
    (pos p : Nat) (vs : List Val) (hno : sym.is_no_res = true)
    (hok : evalS fuel sym s pos = some (.ok (p, vs))) : vs = [] := by
  cases fuel with
  | zero => simp [evalS] at hok
  | succ fuel =>
    rw [evalS_succ] at hok
    cases sym with
    | char c =>
      simp only [evalBody, Option.some.injEq] at hok
      exact noResShell_ok _ _ _ hok
    | ignore symbols =>
      simp only [evalBody] at hok
      split at hok
      · simp at hok
      · rename_i r heq
        simp only [Option.some.injEq] at hok
        exact noResShell_ok _ _ _ hok
    | ignoreRep child mn mx =>
      simp only [evalBody] at hok
      split at hok
      · simp at hok
      · rename_i r heq
        simp only [Option.some.injEq] at hok
        exact noResShell_ok _ _ _ hok
    | seq symbols mk =>
      have hz : nsyms symbols = 0 := by
        simp only [Symbol.is_no_res] at hno
        simpa [nsyms] using hno
      simp only [evalBody] at hok
      split at hok
      · simp at hok
      · rename_i r heq
        rw [if_pos hz] at hok
        simp only [Option.some.injEq] at hok
        exact noResShell_ok _ _ _ hok
    | explChar c mk => simp [Symbol.is_no_res] at hno
    | charNot c mk => simp [Symbol.is_no_res] at hno
    | chars cs mk => simp [Symbol.is_no_res] at hno
    | charsNot cs mk => simp [Symbol.is_no_res] at hno
    | charsNotEsc cs esc mk => simp [Symbol.is_no_res] at hno
    | exceptSym b ex => simp [Symbol.is_no_res] at hno
    | explStr lit mk => simp [Symbol.is_no_res] at hno
    | rep child mn mx mk => simp [Symbol.is_no_res] at hno
    | repStr child mn mx mk => simp [Symbol.is_no_res] at hno
    | opt child mk nv => simp [Symbol.is_no_res] at hno
    | orSym symbols mk => simp [Symbol.is_no_res] at hno
    | chain symbols mk => simp [Symbol.is_no_res] at hno

/-- C10: when a result-suppressed (NoResult) symbol - Char, Str,
Ignore, IgnoreRep, or a Seq with no contributing child - successfully
matches, the top-level trystr raises IndexError rather than returning a
value or a parse error: it unconditionally takes element [0] of the
empty result tuple, so trystr is only well-defined on symbols that
produce at least one value. -/
theorem C10_trystr_indexerror_on_no_res (fuel : Nat) (sym : Symbol)
    (s : String) (useAll : Bool) (p : Nat) (vs : List Val)
    (hno : sym.is_no_res = true)
    (hok : evalS fuel sym s.data 0 = some (.ok (p, vs))) :
    trystr fuel sym s useAll = some (.error .indexError) := by
  have hnil := no_res_ok_nil fuel sym s.data 0 p vs hno hok
  subst hnil
  unfold trystr
  rw [hok]

/-- Witness for C10: Char(a) on the input a matches (consuming the
whole input) and trystr raises IndexError. -/
theorem C10_trystr_indexerror_witness :
    trystr 5 (.char 'a') "a" false = some (.error .indexError) :=
  C10_trystr_indexerror_on_no_res 5 (.char 'a') "a" false 1 [] rfl (by decide)

/-- The first alternative that succeeds makes OR.itr_for_try commit and
yield its values. -/
theorem orItrForTry_cons_ok (ev : Symbol → Nat → PRes) (a : Symbol)
    (rest : List Symbol) (pos : Nat) (r : Nat × List Val)
    (h : ev a pos = some (.ok r)) :
    orItrForTry ev (a :: rest) pos = some (.ok r) := by
  unfold orItrForTry
  rw [h]

/-- OR.itr_for_try fails with SymbolTryFailed exactly when every
alternative fails with SymbolTryFailed or StopSrcItr (each tried in its
own rolled-back attempt at the same position). -/
theorem orItrForTry_fails_iff (ev : Symbol → Nat → PRes) (l : List Symbol)
    (pos : Nat) :
    orItrForTry ev l pos = some (.error .tryFailed) ↔
      ∀ a ∈ l, ev a pos = some (.error .tryFailed) ∨
        ev a pos = some (.error .endOfInput) := by
  induction l with
  | nil => simp [orItrForTry]
  | cons a rest ih =>
    constructor
    · intro h
      unfold orItrForTry at h
      cases hc : ev a pos with
      | none => rw [hc] at h; simp at h
      | some r =>
        rw [hc] at h
        cases r with
        | ok pr => simp at h
        | error e2 =>
          cases e2 with
          | tryFailed =>
            intro b hb
            rcases List.mem_cons.mp hb with hb | hb
            · subst hb; exact Or.inl hc
            · exact ih.mp h b hb
          | endOfInput =>
            intro b hb
            rcases List.mem_cons.mp hb with hb | hb
            · subst hb; exact Or.inr hc
            · exact ih.mp h b hb
          | notAllCharsUsed => simp at h
          | indexError => simp at h
          | typeError => simp at h
    · intro h
      unfold orItrForTry
      rcases h a (List.mem_cons_self a rest) with ha | ha <;> rw [ha]
      · exact ih.mpr (fun b hb => h b (List.mem_cons_of_mem a hb))
      · exact ih.mpr (fun b hb => h b (List.mem_cons_of_mem a hb))

/-- C4: OR tries its alternatives in registration order, each in its
own nested attempt; the first alternative that succeeds commits that
attempt and OR returns the first value that alternative yielded (the
result never comes from a later alternative, whatever it would match);
and OR fails with SymbolTryFailed exactly when every alternative fails
(with SymbolTryFailed or StopSrcItr) at the starting position. -/
theorem C4_or_ordered_choice :
    (∀ (fuel : Nat) (a : Symbol) (rest : List Symbol)
        (mk : Option (Val → Val)) (s : List Char) (pos p1 : Nat) (v : Val)
        (vs : List Val),
        evalS fuel a s pos = some (.ok (p1, v :: vs)) →
        evalS (fuel + 1) (.orSym (a :: rest) mk) s pos =
          some (.ok (p1, [applyOneMaker mk v]))) ∧
    (∀ (fuel : Nat) (alts : List Symbol) (mk : Option (Val → Val))
        (s : List Char) (pos : Nat),
        evalS (fuel + 1) (.orSym alts mk) s pos =
            some (.error .tryFailed) ↔
          ∀ a ∈ alts, evalS fuel a s pos = some (.error .tryFailed) ∨
            evalS fuel a s pos = some (.error .endOfInput)) := by
  constructor
  · intro fuel a rest mk s pos p1 v vs h
    rw [evalS_succ]
    simp only [evalBody]
    rw [orItrForTry_cons_ok (fun c p => evalS fuel c s p) a rest pos _ h]
    rfl
  · intro fuel alts mk s pos
    rw [evalS_succ]
    simp only [evalBody]
    constructor
    · intro h
      cases ho : orItrForTry (fun c p => evalS fuel c s p) alts pos with
      | none => rw [ho] at h; simp at h
      | some r =>
        rw [ho] at h
        simp only [Option.some.injEq] at h
        cases r with
        | error e2 =>
          have h2 : e2 = Err.tryFailed := by
            simpa [oneResShell] using h
          subst h2
          exact (orItrForTry_fails_iff _ alts pos).mp ho
        | ok pr =>
          rcases pr with ⟨p1, vals⟩
          cases vals <;> simp [oneResShell] at h
    · intro h
      rw [(orItrForTry_fails_iff _ alts pos).mpr h]
      rfl

/-- Witness for C4 at concrete grammars: both alternatives of the first
OR would match the input a, and the value is the first alternative's
(the second would yield None instead); in the second OR the first
alternative fails with SymbolTryFailed, the second with StopSrcItr, and
the whole OR fails with SymbolTryFailed. -/
theorem C4_or_ordered_choice_witness :
    evalS 6 (.orSym [.explChar 'a' none,
        .explChar 'a' (some (fun _ => .vnone))] none) "a".data 0 =
      some (.ok (1, [.vstr "a"])) ∧
    evalS 6 (.orSym [.explChar 'b' none, .explStr "ab".data none] none)
        "a".data 0 = some (.error .tryFailed) :=
  ⟨C4_or_ordered_choice.1 5 (.explChar 'a' none)
      [.explChar 'a' (some (fun _ => .vnone))] none "a".data 0 1
      (.vstr "a") [] (by decide),
    (C4_or_ordered_choice.2 5 [.explChar 'b' none, .explStr "ab".data none]
      none "a".data 0).mpr (by decide)⟩

/-- next on an exhausted cursor raises StopSrcItr. -/
theorem srcNext_drop_nil (s : List Char) (pos : Nat) (h : s.drop pos = []) :
    srcNext s pos = .error .endOfInput := by
  have hlen : s.length ≤ pos := List.drop_eq_nil_iff.mp h
  unfold srcNext
  rw [dif_neg (by omega)]

/-- next on a non-exhausted cursor yields the element the remaining
input starts with. -/
theorem srcNext_drop_cons (s : List Char) (pos : Nat) (r : Char)
    (rest2 : List Char) (h : s.drop pos = r :: rest2) :
    srcNext s pos = .ok (r, pos + 1) ∧ s.drop (pos + 1) = rest2 := by
  have hlt : pos < s.length := by
    by_contra hc
    rw [List.drop_eq_nil_of_le (by omega)] at h
    cases h
  have h2 := List.drop_eq_getElem_cons (l := s) (n := pos) hlt
  rw [h2] at h
  injection h with h3 h4
  refine ⟨?_, h4⟩
  unfold srcNext
  rw [dif_pos hlt]
  simp [List.get_eq_getElem, h3]

/-- Reduction of StrABC matching once the next input element is
known. -/
theorem strItrForTry_cons_next (c : Char) (cs : List Char) (s : List Char)
    (pos : Nat) (r : Char) (hn : srcNext s pos = .ok (r, pos + 1)) :
    strItrForTry (c :: cs) s pos =
      if r = c then
        match strItrForTry cs s (pos + 1) with
        | .error e => .error e
        | .ok (pos2, vals) => .ok (pos2, .vstr (String.mk [r]) :: vals)
      else .error .tryFailed := by
  conv_lhs => rw [strItrForTry]
  rw [hn]

/-- When the literal is a prefix of the remaining input, StrABC
matching succeeds, consumes exactly the literal and yields its
characters. -/
theorem strItr_prefix_ok (lit : List Char) :
    ∀ (s : List Char) (pos : Nat), lit <+: s.drop pos →
      strItrForTry lit s pos =
        .ok (pos + lit.length, lit.map (fun c => Val.vstr (String.mk [c]))) := by
  induction lit with
  | nil => intro s pos _; simp [strItrForTry]
  | cons c cs ih =>
    intro s pos hpre
    rcases hpre with ⟨t, ht⟩
    have hd : s.drop pos = c :: (cs ++ t) := by rw [← ht]; rfl
    obtain ⟨hn, hd2⟩ := srcNext_drop_cons s pos c (cs ++ t) hd
    rw [strItrForTry_cons_next c cs s pos c hn, if_pos rfl]
    rw [ih s (pos + 1) ⟨t, by rw [hd2]⟩]
    have harith : pos + (c :: cs).length = pos + 1 + cs.length := by
      simp only [List.length_cons]
      omega
    rw [harith, List.map_cons]

/-- When the remaining input is a strict prefix of the literal, StrABC
matching fails with StopSrcItr (the cursor runs out mid-literal). -/
theorem strItr_strict_prefix_eof (lit : List Char) :
    ∀ (s : List Char) (pos : Nat), s.drop pos <+: lit →
      (s.drop pos).length < lit.length →
      strItrForTry lit s pos = .error .endOfInput := by
  induction lit with
  | nil => intro s pos _ hlen; simp at hlen
  | cons c cs ih =>
    intro s pos hpre hlen
    cases hrem : s.drop pos with
    | nil =>
      unfold strItrForTry
      rw [srcNext_drop_nil s pos hrem]
    | cons r rest2 =>
      rw [hrem] at hpre hlen
      rw [List.cons_prefix_cons] at hpre
      obtain ⟨rfl, hpre2⟩ := hpre
      obtain ⟨hn, hd2⟩ := srcNext_drop_cons s pos r rest2 hrem
      rw [strItrForTry_cons_next r cs s pos r hn, if_pos rfl]
      rw [ih s (pos + 1) (by rw [hd2]; exact hpre2)
        (by rw [hd2]; simpa using hlen)]

/-- When neither the literal nor the remaining input is a prefix of the
other (they disagree at some position both contain), StrABC matching
fails with SymbolTryFailed. -/
theorem strItr_diverge_tf (lit : List Char) :
    ∀ (s : List Char) (pos : Nat), ¬ (lit <+: s.drop pos) →
      ¬ (s.drop pos <+: lit) →
      strItrForTry lit s pos = .error .tryFailed := by
  induction lit with
  | nil => intro s pos h1 _; exact absurd List.nil_prefix h1
  | cons c cs ih =>
    intro s pos h1 h2
    cases hrem : s.drop pos with
    | nil => rw [hrem] at h2; exact absurd List.nil_prefix h2
    | cons r rest2 =>
      rw [hrem] at h1 h2
      obtain ⟨hn, hd2⟩ := srcNext_drop_cons s pos r rest2 hrem
      rw [strItrForTry_cons_next c cs s pos r hn]
      by_cases hrc : r = c
      · subst hrc
        rw [if_pos rfl]
        rw [ih s (pos + 1)
          (by rw [hd2]
              intro hp
              exact h1 (List.cons_prefix_cons.mpr ⟨rfl, hp⟩))
          (by rw [hd2]
              intro hp
              exact h2 (List.cons_prefix_cons.mpr ⟨rfl, hp⟩))]
      · rw [if_neg hrc]

/-- Joining the yielded characters of a literal gives back the literal
as one string. -/
theorem strJoin_map_singleton (lit : List Char) :
    strJoin (lit.map (fun c => Val.vstr (String.mk [c]))) =
      .ok (String.mk lit) := by
  induction lit with
  | nil => rfl
  | cons c cs ih =>
    simp only [List.map_cons, strJoin, ih]
    rfl

/-- C5 (amended): for every literal s, ExplStr(s).trystr(s) returns s
itself; on an input that disagrees with the literal at a position both
contain, trystr fails with SymbolTryFailed; but on an input that is a
strict prefix of the literal, it fails with StopSrcItr (end of input),
not SymbolTryFailed. -/
theorem C5_explstr_roundtrip_and_failure :
    (∀ (lit : List Char) (fuel : Nat),
        trystr (fuel + 1) (.explStr lit none) (String.mk lit) true =
          some (.ok (.vstr (String.mk lit)))) ∧
    (∀ (lit other : List Char) (fuel : Nat) (useAll : Bool),
        ¬ (lit <+: other) → ¬ (other <+: lit) →
        trystr (fuel + 1) (.explStr lit none) (String.mk other) useAll =
          some (.error .tryFailed)) ∧
    (∀ (lit other : List Char) (fuel : Nat) (useAll : Bool),
        other <+: lit → other.length < lit.length →
        trystr (fuel + 1) (.explStr lit none) (String.mk other) useAll =
          some (.error .endOfInput)) := by
  refine ⟨?_, ?_, ?_⟩
  · intro lit fuel
    unfold trystr
    rw [evalS_succ]
    simp only [evalBody]
    rw [strItr_prefix_ok lit (String.mk lit).data 0 (List.prefix_refl lit)]
    simp [strMakerShell, strJoin_map_singleton, applyOneMaker]
  · intro lit other fuel useAll h1 h2
    unfold trystr
    rw [evalS_succ]
    simp only [evalBody]
    rw [strItr_diverge_tf lit (String.mk other).data 0 h1 h2]
    rfl
  · intro lit other fuel useAll hpre hlen
    unfold trystr
    rw [evalS_succ]
    simp only [evalBody]
    rw [strItr_strict_prefix_eof lit (String.mk other).data 0 hpre hlen]
    rfl

/-- Witness for C5: the literal ab round-trips on the input ab, fails
with SymbolTryFailed on ax, and fails with StopSrcItr on the strict
prefix a. -/
theorem C5_explstr_witness :
    trystr 3 (.explStr "ab".data none) (String.mk "ab".data) true =
        some (.ok (.vstr (String.mk "ab".data))) ∧
      trystr 3 (.explStr "ab".data none) (String.mk "ax".data) true =
        some (.error .tryFailed) ∧
      trystr 3 (.explStr "ab".data none) (String.mk "a".data) true =
        some (.error .endOfInput) :=
  ⟨C5_explstr_roundtrip_and_failure.1 "ab".data 2,
    C5_explstr_roundtrip_and_failure.2.1 "ab".data "ax".data 2 true
      (by decide) (by decide),
    C5_explstr_roundtrip_and_failure.2.2 "ab".data "a".data 2 true
      (by decide) (by decide)⟩

/-- C5 counterexample to the claim as stated: an input that is a strict
prefix of the literal makes ExplStr fail with StopSrcItr (end of
input), not with SymbolTryFailed as the claim asserts for every
non-matching input. -/
theorem C5_counterexample_strict_prefix :
    trystr 5 (.explStr "ab".data none) "a" true =
        some (.error .endOfInput) ∧
      trystr 5 (.explStr "ab".data none) "a" true ≠
        some (.error .tryFailed) := by
  exact ⟨by decide, by decide⟩

/-- SymbolABC.trystr when the symbol succeeds with at least one value:
the first value is taken, then the use_all / end-of-input check
decides between NotAllCharsUsed and the value. -/
theorem trystr_ok_cons (fuel : Nat) (sym : Symbol) (s : String)
    (useAll : Bool) (p : Nat) (v : Val) (vs : List Val)
    (hok : evalS fuel sym s.data 0 = some (.ok (p, v :: vs))) :
    trystr fuel sym s useAll =
      if useAll = true ∧ p < s.data.length then
        some (.error .notAllCharsUsed)
      else some (.ok v) := by
  unfold trystr
  rw [hok]

/-- C6: trystr wraps the sequence in a fresh cursor, runs the symbol
and takes the single produced value; if use_all is true and the cursor
is not at end of input after the successful match it raises
NotAllCharsUsed, and if use_all is false it returns the value, leaving
the remainder unconsumed.  Concretely, RepStr over decimal digits
applied to 123abc returns the string 123 with use_all false and raises
NotAllCharsUsed with use_all true. -/
theorem C6_trystr_use_all :
    (∀ (fuel : Nat) (sym : Symbol) (s : String) (p : Nat) (v : Val)
        (vs : List Val),
        evalS fuel sym s.data 0 = some (.ok (p, v :: vs)) →
        p < s.data.length →
        trystr fuel sym s true = some (.error .notAllCharsUsed) ∧
          trystr fuel sym s false = some (.ok v)) ∧
    (∀ (fuel : Nat) (sym : Symbol) (s : String) (p : Nat) (v : Val)
        (vs : List Val) (useAll : Bool),
        evalS fuel sym s.data 0 = some (.ok (p, v :: vs)) →
        ¬ p < s.data.length →
        trystr fuel sym s useAll = some (.ok v)) ∧
    trystr 20 (RepStrC [.chars "0123456789".data none] (some 1) none none)
        "123abc" false = some (.ok (.vstr "123")) ∧
    trystr 20 (RepStrC [.chars "0123456789".data none] (some 1) none none)
        "123abc" true = some (.error .notAllCharsUsed) := by
  refine ⟨?_, ?_, by decide, by decide⟩
  · intro fuel sym s p v vs hok hlt
    constructor
    · rw [trystr_ok_cons fuel sym s true p v vs hok, if_pos ⟨rfl, hlt⟩]
    · rw [trystr_ok_cons fuel sym s false p v vs hok,
        if_neg (by simp)]
  · intro fuel sym s p v vs useAll hok hnlt
    rw [trystr_ok_cons fuel sym s useAll p v vs hok,
      if_neg (fun hcon => hnlt hcon.2)]

/-- Witness for C6 at the concrete RepStr grammar: the digit run
matches 123 and stops at position 3 of 123abc. -/
theorem C6_trystr_use_all_witness :
    trystr 20 (RepStrC [.chars "0123456789".data none] (some 1) none none)
        "123abc" true = some (.error .notAllCharsUsed) ∧
      trystr 20 (RepStrC [.chars "0123456789".data none] (some 1) none none)
        "123abc" false = some (.ok (.vstr "123")) :=
  C6_trystr_use_all.1 20
    (RepStrC [.chars "0123456789".data none] (some 1) none none)
    "123abc" 3 (.vstr "123") [] (by decide) (by decide)

/-- The single-iteration Rep loop (max = 1) on a successful child
attempt: commit and stop with i = 0 (range(1) exhausted). -/
theorem repLoopB_one_ok (ev : Nat → PRes) (pos p : Nat) (vals : List Val)
    (h : ev pos = some (.ok (p, vals))) :
    repLoopB ev 1 0 pos [] = some (.ok (0, p, vals)) := by
  unfold repLoopB
  rw [h]
  rfl

/-- The single-iteration Rep loop (max = 1) on a failing child attempt
(SymbolTryFailed or StopSrcItr): roll back and stop with i = 0. -/
theorem repLoopB_one_fail (ev : Nat → PRes) (pos : Nat) (e : Err)
    (he : e = .tryFailed ∨ e = .endOfInput)
    (h : ev pos = some (.error e)) :
    repLoopB ev 1 0 pos [] = some (.ok (0, pos, [])) := by
  unfold repLoopB
  rw [h]
  rcases he with rfl | rfl <;> rfl

/-- Opt's RepABC.itr_for_try (min = None, max = 1) on a successful
child attempt passes the attempt's values through. -/
theorem opt_itr_ok (fuel : Nat) (c : Symbol) (s : List Char)
    (pos p : Nat) (vals : List Val)
    (h : evalS fuel c s pos = some (.ok (p, vals))) :
    repItrForTry (fun pp => evalS fuel c s pp) none (some 1) s.length pos =
      some (.ok (p, vals)) := by
  unfold repItrForTry
  simp only [repLoop]
  rw [repLoopB_one_ok (fun pp => evalS fuel c s pp) pos p vals h]
  rfl

/-- Opt's RepABC.itr_for_try (min = None, max = 1) on a failing child
attempt yields no values and keeps the position. -/
theorem opt_itr_fail (fuel : Nat) (c : Symbol) (s : List Char) (pos : Nat)
    (e : Err) (he : e = .tryFailed ∨ e = .endOfInput)
    (h : evalS fuel c s pos = some (.error e)) :
    repItrForTry (fun pp => evalS fuel c s pp) none (some 1) s.length pos =
      some (.ok (pos, [])) := by
  unfold repItrForTry
  simp only [repLoop]
  rw [repLoopB_one_fail (fun pp => evalS fuel c s pp) pos e he h]
  rfl

/-- The evaluation of an Opt node, given the outcome of its iteration
loop: Opt.make_from_itr shapes the values. -/
theorem evalS_opt_eq (fuel : Nat) (c : Symbol)
    (mk : Option (List Val → Val)) (nv : Option Val) (s : List Char)
    (pos p : Nat) (vals : List Val)
    (hr : repItrForTry (fun pp => evalS fuel c s pp) none (some 1)
        s.length pos = some (.ok (p, vals))) :
    evalS (fuel + 1) (.opt c mk nv) s pos =
      some (.ok (p, [optMake mk nv vals])) := by
  rw [evalS_succ]
  simp only [evalBody]
  rw [hr]

/-- C7: Opt(child) with no none_val and no maker yields the one-element
tuple of the child's value on a successful match and the empty tuple on
zero matches; Opt(child, none_val = v) with no maker yields the child's
value itself (unwrapped) on a successful match and the sentinel v on
zero matches; with a maker the maker is applied to the value list and
the sentinel is ignored, so the sentinel substitution applies only in
the single-valued (no-maker, none_val given) configuration. -/
theorem C7_opt_result_shapes :
    (∀ (fuel : Nat) (child : Symbol) (s : List Char) (pos p : Nat)
        (v : Val),
        evalS fuel (.seq [child] none) s pos = some (.ok (p, [v])) →
        evalS (fuel + 1) (OptC [child] none none none) s pos =
            some (.ok (p, [.vtuple [v]])) ∧
          ∀ nv : Val,
            evalS (fuel + 1) (OptC [child] none none (some nv)) s pos =
              some (.ok (p, [v]))) ∧
    (∀ (fuel : Nat) (child : Symbol) (s : List Char) (pos : Nat) (e : Err),
        (e = .tryFailed ∨ e = .endOfInput) →
        evalS fuel (.seq [child] none) s pos = some (.error e) →
        evalS (fuel + 1) (OptC [child] none none none) s pos =
            some (.ok (pos, [.vtuple []])) ∧
          (∀ nv : Val,
            evalS (fuel + 1) (OptC [child] none none (some nv)) s pos =
              some (.ok (pos, [nv]))) ∧
          (∀ (f : List Val → Val) (nv : Val),
            evalS (fuel + 1) (OptC [child] none (some f) (some nv)) s pos =
              some (.ok (pos, [f []])))) := by
  constructor
  · intro fuel child s pos p v h
    exact ⟨evalS_opt_eq fuel _ none none s pos p [v]
        (opt_itr_ok fuel _ s pos p [v] h),
      fun nv => evalS_opt_eq fuel _ none (some nv) s pos p [v]
        (opt_itr_ok fuel _ s pos p [v] h)⟩
  · intro fuel child s pos e he h
    exact ⟨evalS_opt_eq fuel _ none none s pos pos []
        (opt_itr_fail fuel _ s pos e he h),
      fun nv => evalS_opt_eq fuel _ none (some nv) s pos pos []
        (opt_itr_fail fuel _ s pos e he h),
      fun f nv => evalS_opt_eq fuel _ (some f) (some nv) s pos pos []
        (opt_itr_fail fuel _ s pos e he h)⟩

/-- Witness for C7 with child ExplChar(m): on the input m the default
Opt yields the tuple (m,) and the none_val form yields m itself; on the
input x (zero matches) the default Opt yields the empty tuple, the
none_val form yields the sentinel None, and the maker form applies the
maker to the empty value list, ignoring the sentinel. -/
theorem C7_opt_result_shapes_witness :
    (evalS 3 (OptC [.explChar 'm' none] none none none) "m".data 0 =
        some (.ok (1, [.vtuple [.vstr "m"]])) ∧
      ∀ nv : Val,
        evalS 3 (OptC [.explChar 'm' none] none none (some nv)) "m".data 0 =
          some (.ok (1, [.vstr "m"]))) ∧
    (evalS 3 (OptC [.explChar 'm' none] none none none) "x".data 0 =
        some (.ok (0, [.vtuple []])) ∧
      (∀ nv : Val,
        evalS 3 (OptC [.explChar 'm' none] none none (some nv)) "x".data 0 =
          some (.ok (0, [nv]))) ∧
      (∀ (f : List Val → Val) (nv : Val),
        evalS 3 (OptC [.explChar 'm' none] none (some f) (some nv))
            "x".data 0 = some (.ok (0, [f []])))) :=
  ⟨C7_opt_result_shapes.1 2 (.explChar 'm' none) "m".data 0 1 (.vstr "m")
      (by decide),
    C7_opt_result_shapes.2 2 (.explChar 'm' none) "x".data 0 .tryFailed
      (Or.inl rfl) (by decide)⟩

/-- Evaluation of a Seq node, given the outcome of running its
children: the result shell is chosen by the contributing-child count
fixed in Seq.__init__. -/
theorem evalS_seq_eq (fuel : Nat) (symbols : List Symbol)
    (mk : Option (List Val → Val)) (s : List Char) (pos : Nat)
    (r : Nat × List Val)
    (hseq : seqItrForTry (fun c p => evalS fuel c s p) symbols pos =
      some (.ok r)) :
    evalS (fuel + 1) (.seq symbols mk) s pos =
      some (if nsyms symbols = 0 then noResShell (.ok r)
            else if nsyms symbols = 1 then
              oneResShell (mk.map (fun f v => f [v])) (.ok r)
            else manyResShell mk (.ok r)) := by
  rw [evalS_succ]
  simp only [evalBody]
  rw [hseq]

/-- C8 (amended): the result arity of Seq(child1..childN) is derived by
counting children that are not NoResult.  Zero such children makes the
Seq itself NoResult, contributing nothing upward; exactly one makes it
pass that child's value through the maker when one is supplied (the
maker is called with that single value) and through unchanged
otherwise; more than one makes it ManyResult, yielding the ordered
values of the contributing children as a tuple, or through the maker
when one is supplied. -/
theorem C8_seq_result_arity :
    (∀ (symbols : List Symbol) (mk : Option (List Val → Val)),
        nsyms symbols = 0 →
        Symbol.is_no_res (.seq symbols mk) = true) ∧
    (∀ (fuel : Nat) (symbols : List Symbol) (mk : Option (List Val → Val))
        (s : List Char) (pos p : Nat) (vs : List Val),
        nsyms symbols = 0 →
        evalS fuel (.seq symbols mk) s pos = some (.ok (p, vs)) →
        vs = []) ∧
    (∀ (fuel : Nat) (symbols : List Symbol) (s : List Char) (pos p : Nat)
        (v : Val) (vs : List Val),
        nsyms symbols = 1 →
        seqItrForTry (fun c pp => evalS fuel c s pp) symbols pos =
          some (.ok (p, v :: vs)) →
        evalS (fuel + 1) (.seq symbols none) s pos =
          some (.ok (p, [v]))) ∧
    (∀ (fuel : Nat) (symbols : List Symbol) (f : List Val → Val)
        (s : List Char) (pos p : Nat) (v : Val) (vs : List Val),
        nsyms symbols = 1 →
        seqItrForTry (fun c pp => evalS fuel c s pp) symbols pos =
          some (.ok (p, v :: vs)) →
        evalS (fuel + 1) (.seq symbols (some f)) s pos =
          some (.ok (p, [f [v]]))) ∧
    (∀ (fuel : Nat) (symbols : List Symbol) (mk : Option (List Val → Val))
        (s : List Char) (pos p : Nat) (vals : List Val),
        2 ≤ nsyms symbols →
        seqItrForTry (fun c pp => evalS fuel c s pp) symbols pos =
          some (.ok (p, vals)) →
        evalS (fuel + 1) (.seq symbols mk) s pos =
          some (.ok (p, [applyManyMaker mk vals]))) := by
  refine ⟨?_, ?_, ?_, ?_, ?_⟩
  · intro symbols mk hz
    simp only [Symbol.is_no_res, beq_iff_eq]
    exact hz
  · intro fuel symbols mk s pos p vs hz hok
    exact no_res_ok_nil fuel (.seq symbols mk) s pos p vs
      (by simp only [Symbol.is_no_res, beq_iff_eq]; exact hz) hok
  · intro fuel symbols s pos p v vs h1 hseq
    rw [evalS_seq_eq fuel symbols none s pos (p, v :: vs) hseq]
    rw [if_neg (by omega), if_pos h1]
    rfl
  · intro fuel symbols f s pos p v vs h1 hseq
    rw [evalS_seq_eq fuel symbols (some f) s pos (p, v :: vs) hseq]
    rw [if_neg (by omega), if_pos h1]
    rfl
  · intro fuel symbols mk s pos p vals h2 hseq
    rw [evalS_seq_eq fuel symbols mk s pos (p, vals) hseq]
    rw [if_neg (by omega), if_neg (by omega)]
    rfl

/-- Witness for C8 at concrete grammars: a Seq with one contributing
child (plus a suppressed Char) passes the value through; with a maker
it applies the maker; with two contributing children it yields the
ordered tuple. -/
theorem C8_seq_result_arity_witness :
    evalS 6 (.seq [.explChar 'a' none, .char 'b'] none) "ab".data 0 =
        some (.ok (2, [.vstr "a"])) ∧
      evalS 6 (.seq [.explChar 'a' none] (some (fun _ => .vnone))) "a".data 0 =
        some (.ok (1, [.vnone])) ∧
      evalS 6 (.seq [.explChar 'a' none, .explChar 'b' none] none)
          "ab".data 0 =
        some (.ok (2, [.vtuple [.vstr "a", .vstr "b"]])) :=
  ⟨C8_seq_result_arity.2.2.1 5 [.explChar 'a' none, .char 'b'] "ab".data 0 2
      (.vstr "a") [] (by decide) (by decide),
    C8_seq_result_arity.2.2.2.1 5 [.explChar 'a' none] (fun _ => .vnone)
      "a".data 0 1 (.vstr "a") [] (by decide) (by decide),
    C8_seq_result_arity.2.2.2.2 5 [.explChar 'a' none, .explChar 'b' none]
      none "ab".data 0 2 [.vstr "a", .vstr "b"] (by decide) (by decide)⟩

/-- C8 counterexample to the claim as stated: a Seq with exactly one
contributing child and a maker does not pass the child's value through
unchanged - the maker is applied to it (Seq(ExplChar(a), maker) on the
input a yields the maker's output None, not the matched a). -/
theorem C8_counterexample_one_res_maker :
    trystr 6 (.seq [.explChar 'a' none] (some (fun _ => .vnone))) "a" true =
        some (.ok .vnone) ∧
      trystr 6 (.seq [.explChar 'a' none] (some (fun _ => .vnone))) "a" true ≠
        some (.ok (.vstr "a")) := by
  exact ⟨by decide, by decide⟩

/-- Evaluation of a Seq node when running its children fails: the
error passes through every result shell. -/
theorem evalS_seq_eq_err (fuel : Nat) (symbols : List Symbol)
    (mk : Option (List Val → Val)) (s : List Char) (pos : Nat) (e : Err)
    (hseq : seqItrForTry (fun c p => evalS fuel c s p) symbols pos =
      some (.error e)) :
    evalS (fuel + 1) (.seq symbols mk) s pos = some (.error e) := by
  rw [evalS_succ]
  simp only [evalBody]
  rw [hseq]
  split
  · rename_i heq
    cases heq
  · rename_i r heq
    cases heq
    split
    · rfl
    · split <;> rfl

/-- Evaluation of a Seq node when running its children does not
terminate. -/
theorem evalS_seq_eq_none (fuel : Nat) (symbols : List Symbol)
    (mk : Option (List Val → Val)) (s : List Char) (pos : Nat)
    (hseq : seqItrForTry (fun c p => evalS fuel c s p) symbols pos = none) :
    evalS (fuel + 1) (.seq symbols mk) s pos = none := by
  rw [evalS_succ]
  simp only [evalBody]
  rw [hseq]

/-- A Chain node yields exactly one value when it succeeds. -/
theorem chain_ok_singleton (fuel : Nat) (symbols : List Symbol)
    (mk : Option (List Val → Val)) (s : List Char) (pos p : Nat)
    (vals : List Val)
    (h : evalS fuel (.chain symbols mk) s pos = some (.ok (p, vals))) :
    ∃ w, vals = [w] := by
  cases fuel with
  | zero => simp [evalS] at h
  | succ fuel =>
    rw [evalS_succ] at h
    simp only [evalBody] at h
    split at h
    · simp at h
    · rename_i e heq
      simp at h
    · rename_i p1 vals1 heq
      split at h
      · rename_i e heq2
        simp at h
      · rename_i flat heq2
        simp only [Option.some.injEq, Except.ok.injEq, Prod.mk.injEq] at h
        exact ⟨applyManyMaker mk flat, h.2.symm⟩

/-- A Seq with a single contributing child that always yields exactly
one value passes that child's evaluation through unchanged. -/
theorem seq_single_passthrough (fuel : Nat) (c : Symbol) (s : List Char)
    (pos : Nat) (hnr : c.is_no_res = false)
    (hsingle : ∀ p vals, evalS fuel c s pos = some (.ok (p, vals)) →
      ∃ w, vals = [w]) :
    evalS (fuel + 1) (.seq [c] none) s pos = evalS fuel c s pos := by
  have hn1 : nsyms [c] = 1 := by
    simp [nsyms, Symbol.nsymsList, hnr]
  cases hc : evalS fuel c s pos with
  | none =>
    refine evalS_seq_eq_none fuel [c] none s pos ?_
    unfold seqItrForTry
    rw [hc]
  | some r =>
    cases r with
    | error e =>
      refine evalS_seq_eq_err fuel [c] none s pos e ?_
      unfold seqItrForTry
      rw [hc]
    | ok pr =>
      rcases pr with ⟨p, vals⟩
      rcases hsingle p vals hc with ⟨w, rfl⟩
      have hseq : seqItrForTry (fun c2 p2 => evalS fuel c2 s p2) [c] pos =
          some (.ok (p, [w])) := by
        unfold seqItrForTry
        rw [hc]
        rfl
      rw [evalS_seq_eq fuel [c] none s pos (p, [w]) hseq]
      rw [if_neg (by omega), if_pos hn1]
      rfl

/-- C9: RepSep(element, sep) is built, exactly as in RepSep.__init__,
as a pass-through Seq around Chain(Rep(Seq(element, sep)), Opt(element))
with the user maker on the Chain; its evaluation coincides with that of
the Chain composition; and it accepts the trailing-separator and
no-trailing-separator forms with the same flattened result: under the
separator comma, both a,b,c and a,b,c, yield the ordered values
(a, b, c). -/
theorem C9_repsep_composition :
    (∀ (el sep : Symbol) (mk : Option (List Val → Val)),
        RepSepC [el] sep mk =
          .seq [.chain [RepC [el, sep] none none none none,
            OptC [el] none none none] mk] none) ∧
    (∀ (fuel : Nat) (el sep : Symbol) (mk : Option (List Val → Val))
        (s : List Char) (pos : Nat),
        evalS (fuel + 1) (RepSepC [el] sep mk) s pos =
          evalS fuel (.chain [RepC [el, sep] none none none none,
            OptC [el] none none none] mk) s pos) ∧
    trystr 30 (RepSepC [.charsNot [','] none] (.char ',') none) "a,b,c"
        true = some (.ok (.vtuple [.vstr "a", .vstr "b", .vstr "c"])) ∧
    trystr 30 (RepSepC [.charsNot [','] none] (.char ',') none) "a,b,c,"
        true = some (.ok (.vtuple [.vstr "a", .vstr "b", .vstr "c"])) := by
  refine ⟨fun el sep mk => rfl, ?_, by decide, by decide⟩
  intro fuel el sep mk s pos
  exact seq_single_passthrough fuel
    (.chain [RepC [el, sep] none none none none, OptC [el] none none none] mk)
    s pos rfl
    (fun p vals h => chain_ok_singleton fuel _ mk s pos p vals h)

end Clslang
